import Mathlib

/-!
Verification of the segmentation / review core of the `long_text_verfiy_agent`
repository against its natural-language specification.

The embedding models text as `List Char` (Python string indices are character
indices) and Python integers as `Int`.  Python slice indices (which may be
negative, counting from the end, and are clamped to the string bounds) are
modelled by `pyIdx`; `str.rfind` and slicing are modelled on top of it.
The `while` loops of `_split_by_fixed_size` and `_split_large_content` are
modelled with explicit fuel, returning `none` when the fuel runs out, because
the source loops do not terminate on every input.
-/

set_option linter.unusedVariables false

namespace LongTextReview

/-- Text is a list of characters; Python string indices are character indices. -/
abbrev Str := List Char

/-- Python slice-index normalisation: a negative index counts from the end and
is clamped below by 0; a non-negative index is clamped above by the length.
`str.find/rfind` interpret their `start`/`end` arguments the same way. -/
def pyIdx (n : Nat) (i : Int) : Nat :=
  if i < 0 then ((n : Int) + i).toNat else min i.toNat n

/-- Python slice `t[s:e]`. -/
def pySlice (t : Str) (s e : Int) : Str :=
  (t.take (pyIdx t.length e)).drop (pyIdx t.length s)

/-- Python `text.rfind(c, s, e)` for a single-character needle: the largest
index `i` with `s' ≤ i < e'` (slice-normalised bounds) holding character `c`,
else `-1`. -/
def rfind (t : Str) (c : Char) (s e : Int) : Int :=
  let s' := pyIdx t.length s
  let e' := pyIdx t.length e
  (List.range' s' (e' - s')).foldl
    (fun acc i => if t.get? i = some c then (i : Int) else acc) (-1)

/-- Python `text.rfind(c₁c₂, s, e)` for a two-character needle (used for
`'\n\n'` in `_find_split_position`): the match must lie inside `t[s:e]`. -/
def rfind2 (t : Str) (c1 c2 : Char) (s e : Int) : Int :=
  let s' := pyIdx t.length s
  let e' := pyIdx t.length e
  (List.range' s' (e' - s')).foldl
    (fun acc i =>
      if t.get? i = some c1 ∧ t.get? (i + 1) = some c2 ∧ i + 2 ≤ e' then (i : Int) else acc)
    (-1)

/-- The splitter configuration (`TextSplitter.__init__`): strategy string and
the three size bounds read from the config mapping. -/
structure SplitConfig where
  strategy : Str
  max_chunk_size : Nat
  chunk_overlap : Nat
  min_chunk_size : Nat
  deriving DecidableEq, Repr

/-- The `TextChunk` dataclass of `text_splitter.py`: content, id, optional
chapter/section labels and start/end offsets (Python ints, default 0). -/
structure TextChunk where
  content : Str
  chunk_id : Nat
  chapter : Option Str := none
  section_ : Option Str := none
  start_pos : Int := 0
  end_pos : Int := 0
  deriving DecidableEq, Repr

/-- The `sentence_end` computation of `_split_by_fixed_size`: the maximum of
the six `rfind` results for the sentence terminators `。？！.?!`. -/
def sentenceEnd (t : Str) (s e : Int) : Int :=
  max (rfind t '。' s e)
    (max (rfind t '？' s e)
      (max (rfind t '！' s e)
        (max (rfind t '.' s e)
          (max (rfind t '?' s e) (rfind t '!' s e)))))

/-- The boundary-snap of `_split_by_fixed_size`: if a sentence terminator is
found strictly after `start`, the window ends one past it; otherwise, if a
space is found strictly after `start`, the window ends at the space; otherwise
the window end is unchanged. -/
def chooseEnd (t : Str) (start e : Int) : Int :=
  let se := sentenceEnd t start e
  if start < se then se + 1
  else
    let sp := rfind t ' ' start e
    if start < sp then sp else e

/-- One iteration of `_split_by_fixed_size`: `end = start + max_chunk_size`,
snapped by `chooseEnd` when `end < len(text)`. -/
def windowEnd (cfg : SplitConfig) (t : Str) (start : Int) : Int :=
  if start + (cfg.max_chunk_size : Int) < (t.length : Int) then
    chooseEnd t start (start + (cfg.max_chunk_size : Int))
  else start + (cfg.max_chunk_size : Int)

/-- The loop advance of `_split_by_fixed_size` (and `_split_large_content`):
`start = end - chunk_overlap` when `end < len(text)`, else `start = end`. -/
def nextFrom (cfg : SplitConfig) (t : Str) (e : Int) : Int :=
  if e < (t.length : Int) then e - (cfg.chunk_overlap : Int) else e

/-- The chunk emitted by one `_split_by_fixed_size` iteration:
`text[start:end]` with the current id and the window offsets. -/
def windowChunk (cfg : SplitConfig) (t : Str) (start : Int) (cid : Nat) : TextChunk :=
  { content := pySlice t start (windowEnd cfg t start), chunk_id := cid,
    start_pos := start, end_pos := windowEnd cfg t start }

/-- The `while start < len(text)` loop of `_split_by_fixed_size`, with explicit
fuel (`none` = the source loop has not terminated within `fuel` iterations). -/
def fixedLoop (cfg : SplitConfig) (t : Str) : Nat → Int → Nat → Option (List TextChunk)
  | 0, _, _ => none
  | fuel + 1, start, cid =>
    if start < (t.length : Int) then
      (fixedLoop cfg t fuel (nextFrom cfg t (windowEnd cfg t start)) (cid + 1)).map
        (windowChunk cfg t start cid :: ·)
    else some []

/-- The function `TextSplitter._split_by_fixed_size`. -/
def split_by_fixed_size (cfg : SplitConfig) (t : Str) (fuel : Nat) : Option (List TextChunk) :=
  fixedLoop cfg t fuel 0 0

/-- Python `\s` over the ASCII range (the repository's texts are ASCII + CJK,
none of which has further Unicode whitespace). -/
def isPySpace (c : Char) : Bool :=
  c = ' ' || c = '\t' || c = '\n' || c = '\r' || c = '\x0b' || c = '\x0c'

/-- Python `str.strip()`: remove leading and trailing whitespace. -/
def pyStrip (l : Str) : Str :=
  ((l.dropWhile isPySpace).reverse.dropWhile isPySpace).reverse

/-- Where the regex `\n\s*\n` matches at the head of `l`: `some k` means the
greedy match consumes `k + 2` characters (a newline, then the whitespace run up
to and including its last newline, `k` being the index of that last newline in
the run).  `none` means no match starts here. -/
def sepNl (l : Str) : Option Nat :=
  match l with
  | '\n' :: rest =>
    let u := rest.takeWhile isPySpace
    match (u.enum.filter (fun p => p.2 = '\n')).getLast? with
    | some (k, _) => some k
    | none => none
  | _ => none

/-- The left-to-right scan of `re.split(r'\n\s*\n', text)`, structurally
recursive on a fuel that bounds the number of characters still to examine
(every step consumes at least one character, so `length + 1` fuel always
suffices; the fuel-0 arm is unreachable). -/
def paraSplitGo : Nat → Str → List Str
  | 0, l => [l]
  | _ + 1, [] => [[]]
  | f + 1, c :: rest =>
    match sepNl (c :: rest) with
    | some k => [] :: paraSplitGo f ((c :: rest).drop (k + 2))
    | none =>
      match paraSplitGo f rest with
      | [] => [[c]]
      | p :: ps => (c :: p) :: ps

/-- Python `re.split(r'\n\s*\n', text)`: scan left to right, cutting at each
(non-overlapping, greedy) separator match. -/
def paraSplitRaw (l : Str) : List Str :=
  paraSplitGo (l.length + 1) l

/-- The greedy packing loop of `_split_by_paragraph`: `current` is the running
chunk; a stripped paragraph is appended (joined by `"\n\n"`) unless doing so
would exceed `max_chunk_size` while `current` is non-empty, in which case the
running chunk is emitted and the paragraph starts a new one. -/
def paraPack (cfg : SplitConfig) : List Str → Str → Nat → List TextChunk
  | [], current, cid =>
    if current ≠ [] then [{ content := current, chunk_id := cid }] else []
  | p :: rest, current, cid =>
    let p' := pyStrip p
    if p' = [] then paraPack cfg rest current cid
    else if cfg.max_chunk_size < current.length + p'.length ∧ current ≠ [] then
      { content := current, chunk_id := cid } :: paraPack cfg rest p' (cid + 1)
    else
      paraPack cfg rest (if current ≠ [] then current ++ '\n' :: '\n' :: p' else p') cid

/-- The function `TextSplitter._split_by_paragraph`. -/
def split_by_paragraph (cfg : SplitConfig) (t : Str) : List TextChunk :=
  paraPack cfg (paraSplitRaw t) [] 0

/-- The function `TextSplitter._find_split_position`: candidate cut points are one past each
sentence terminator found strictly after `start`, two past a `"\n\n"` found
strictly after `start`, and one past a space found strictly after `start`; the
maximum candidate wins, else `e` is returned unchanged. -/
def find_split_position (t : Str) (start e : Int) : Int :=
  let sentCands : List Int :=
    (['。', '！', '？', '.', '!', '?'].map (fun c => rfind t c start e)).filterMap
      (fun pos => if start < pos then some (pos + 1) else none)
  let paraCands : List Int :=
    let pp := rfind2 t '\n' '\n' start e
    if start < pp then [pp + 2] else []
  let spaceCands : List Int :=
    let sp := rfind t ' ' start e
    if start < sp then [sp + 1] else []
  let candidates := sentCands ++ paraCands ++ spaceCands
  candidates.foldl max (match candidates with | [] => e | x :: _ => x)

/-- One iteration of `_split_large_content`: the window end taken from
`_find_split_position`, accepted only when strictly after `start`. -/
def largeEnd (cfg : SplitConfig) (t : Str) (start : Int) : Int :=
  if start + (cfg.max_chunk_size : Int) < (t.length : Int) then
    let sp := find_split_position t start (start + (cfg.max_chunk_size : Int))
    if start < sp then sp else start + (cfg.max_chunk_size : Int)
  else start + (cfg.max_chunk_size : Int)

/-- The sub-chunk emitted by one `_split_large_content` iteration, carrying
the chapter label. -/
def largeChunk (cfg : SplitConfig) (t : Str) (chapter : Option Str) (start : Int)
    (sid : Nat) : TextChunk :=
  { content := pySlice t start (largeEnd cfg t start), chunk_id := sid, chapter := chapter,
    start_pos := start, end_pos := largeEnd cfg t start }

/-- The `while start < len(content)` loop of `_split_large_content`, with fuel.
Same window advance as `fixedLoop`, but the snap uses `find_split_position`
and sub-chunk ids restart at the given counter. -/
def largeLoop (cfg : SplitConfig) (t : Str) (chapter : Option Str) :
    Nat → Int → Nat → Option (List TextChunk)
  | 0, _, _ => none
  | fuel + 1, start, sid =>
    if start < (t.length : Int) then
      (largeLoop cfg t chapter fuel (nextFrom cfg t (largeEnd cfg t start)) (sid + 1)).map
        (largeChunk cfg t chapter start sid :: ·)
    else some []

/-- The function `TextSplitter._split_large_content`: sub-chunk ids start from 0. -/
def split_large_content (cfg : SplitConfig) (t : Str) (chapter : Option Str) (fuel : Nat) :
    Option (List TextChunk) :=
  largeLoop cfg t chapter fuel 0 0

/-- The per-chapter body of `_split_by_chapter`, after the matches have been
sorted: the `i`-th match owns the span from its own start to the next match's
start (or the end of the text).  A span longer than `max_chunk_size` is handed
to `_split_large_content` with the (unstripped) title, restarting sub-ids at 0;
otherwise one chunk with `chunk_id := i` and the stripped title is emitted. -/
def chapterChunks (cfg : SplitConfig) (t : Str) (fuel : Nat) :
    Nat → List (Nat × Nat × Str) → Option (List TextChunk)
  | _, [] => some []
  | i, (s, _, title) :: rest =>
    let content : Str :=
      match rest with
      | (s2, _, _) :: _ => pySlice t (s : Int) (s2 : Int)
      | [] => t.drop s
    if cfg.max_chunk_size < content.length then
      (split_large_content cfg content (some title) fuel).bind fun subs =>
        (chapterChunks cfg t fuel (i + 1) rest).map (fun more => subs ++ more)
    else
      (chapterChunks cfg t fuel (i + 1) rest).map
        (fun more =>
          { content := content, chunk_id := i, chapter := some (pyStrip title),
            start_pos := (s : Int), end_pos := (s : Int) + (content.length : Int) } :: more)

/-- The function `TextSplitter._split_by_chapter`, abstracting the regex scan: `ms` is
the list of `(match.start(), match.end(), match.group())` triples produced by
`finditer` over all compiled patterns.  The code sorts them by start position
(`list.sort` is stable and ascending, which is exactly insertion sort on a
strict key comparison) and, when none were found, falls back to
`_split_by_fixed_size`. -/
def split_by_chapter (cfg : SplitConfig) (ms : List (Nat × Nat × Str)) (t : Str)
    (fuel : Nat) : Option (List TextChunk) :=
  let sorted := ms.insertionSort (fun a b => a.1 < b.1)
  match sorted with
  | [] => split_by_fixed_size cfg t fuel
  | _ => chapterChunks cfg t fuel 0 sorted

/-- A placeholder `TextChunk` standing for Python's `chunks[-1]` access in
`_split_by_semantic`; it is never reached because `_split_large_content` on a
non-empty text always yields at least one chunk. -/
def dummyChunk : TextChunk := { content := [], chunk_id := 0 }

/-- The loop body of `_split_by_semantic` over the paragraph-strategy chunks:
re-packs paragraph chunks greedily; an oversized paragraph chunk is split by
`_split_large_content` (with no chapter label) and the running id is reset to
one past the last emitted sub-chunk's id. -/
def semanticLoop (cfg : SplitConfig) (fuel : Nat) :
    List TextChunk → Str → Nat → Option (List TextChunk)
  | [], current, cid =>
    some (if current ≠ [] then [{ content := current, chunk_id := cid }] else [])
  | pc :: rest, current, cid =>
    if current.length + pc.content.length ≤ cfg.max_chunk_size then
      semanticLoop cfg fuel rest
        (if current ≠ [] then current ++ '\n' :: '\n' :: pc.content else pc.content) cid
    else
      let emitted : List TextChunk :=
        if current ≠ [] then [{ content := current, chunk_id := cid }] else []
      let cid1 := if current ≠ [] then cid + 1 else cid
      if cfg.max_chunk_size < pc.content.length then
        (split_large_content cfg pc.content none fuel).bind fun subs =>
          (semanticLoop cfg fuel rest [] ((subs.getLastD dummyChunk).chunk_id + 1)).map
            (fun more => emitted ++ subs ++ more)
      else
        (semanticLoop cfg fuel rest pc.content cid1).map (fun more => emitted ++ more)

/-- The function `TextSplitter._split_by_semantic`: paragraph split, then greedy re-pack. -/
def split_by_semantic (cfg : SplitConfig) (t : Str) (fuel : Nat) : Option (List TextChunk) :=
  semanticLoop cfg fuel (split_by_paragraph cfg t) [] 0

/-- The function `TextSplitter.split_text`: dispatch over the configured strategy string;
an unrecognized strategy raises `ValueError` (modelled as `Except.error` with
the formatted message).  The inner `Option` is the fuel bound on the
fixed-size loops (`none` = the corresponding source loop does not terminate
within `fuel` iterations). -/
def split_text (cfg : SplitConfig) (ms : List (Nat × Nat × Str)) (t : Str)
    (fuel : Nat) : Except Str (Option (List TextChunk)) :=
  if cfg.strategy = "chapter".toList then .ok (split_by_chapter cfg ms t fuel)
  else if cfg.strategy = "paragraph".toList then .ok (some (split_by_paragraph cfg t))
  else if cfg.strategy = "semantic".toList then .ok (split_by_semantic cfg t fuel)
  else if cfg.strategy = "fixed_size".toList then .ok (split_by_fixed_size cfg t fuel)
  else .error ("不支持的分割策略: ".toList ++ cfg.strategy)

/-! ### Result aggregator / scorer (`reviewer.py`) -/

/-- The `ReviewIssue` dataclass of `review_points.py` (confidence defaults to
1.0; modelled as an exact rational, the arithmetic of
`calculate_overall_score` involving only `+`, `*` and `max`). -/
structure ReviewIssue where
  chunk_id : Int
  review_point : Str
  type : Str
  severity : Str
  description : Str
  location : Str
  suggestion : Str
  confidence : ℚ := 1
  deriving DecidableEq, Repr

/-- The `penalty_weights` dict of `ReviewResult.calculate_overall_score`, with
`dict.get(severity, 1)` as the fallback for unknown severities. -/
def penaltyWeight (sev : Str) : ℚ :=
  if sev = "critical".toList then 20
  else if sev = "high".toList then 10
  else if sev = "medium".toList then 5
  else if sev = "low".toList then 1
  else 1

/-- The method `ReviewResult.calculate_overall_score`: 100 for an empty issue list, else
100 minus the accumulated severity-weighted, confidence-scaled penalty,
floored at 0.  The consistency sub-score is not an input. -/
def calculate_overall_score (issues : List ReviewIssue) : ℚ :=
  if issues = [] then 100
  else
    let total_penalty :=
      issues.foldl (fun acc issue => acc + penaltyWeight issue.severity * issue.confidence) 0
    max 0 (100 - total_penalty)

/-! ### Terminology consistency check (`consistency_checker.py`) -/

/-- A finding dict as built by `_check_terminology_consistency`. -/
structure Inconsistency where
  type : Str
  severity : Str
  description : Str
  location : Str
  suggestion : Str
  confidence : ℚ
  deriving DecidableEq, Repr

/-- A character matching Python `[\w一-鿿]` over the alphabet the
repository handles (ASCII alphanumerics, underscore, CJK ideographs). -/
def isWordChar (c : Char) : Bool :=
  c.isAlphanum || c = '_' || (0x4e00 ≤ c.val && c.val ≤ 0x9fff)

/-- The function `ConsistencyChecker._normalize_term`: lowercase, then drop every character
outside `[\w一-鿿]`. -/
def normalize_term (term : Str) : Str :=
  (term.map Char.toLower).filter isWordChar

/-- One step of filling the `term_variations` defaultdict: append `v` to the
bucket of key `k`, creating the bucket at the end on first sight (Python dicts
iterate in key-insertion order). -/
def addOccurrence (m : List (Str × List (Nat × Str))) (k : Str) (v : Nat × Str) :
    List (Str × List (Nat × Str)) :=
  match m with
  | [] => [(k, [v])]
  | (k', vs) :: rest =>
    if k' = k then (k', vs ++ [v]) :: rest else (k', vs) :: addOccurrence rest k v

/-- The `term_collections` list: `(i, extract(chunk.content))` per chunk, in
order.  The lexical `_extract_terms` pass is abstracted as `extract`, the
claims under verification quantifying over its output. -/
def termCollections (extract : Str → List Str) (chunks : List TextChunk) :
    List (Nat × List Str) :=
  chunks.enum.map (fun p => (p.1, extract p.2.content))

/-- The `term_variations` mapping: every occurrence `(chunk_id, term)` filed
under `normalize_term term`, in scan order. -/
def termVariations (cols : List (Nat × List Str)) : List (Str × List (Nat × Str)) :=
  cols.foldl (fun m p => p.2.foldl (fun m' term => addOccurrence m' (normalize_term term) (p.1, term)) m) []

/-- The distinct surface forms of a bucket (Python `set(...)`, modelled in
first-occurrence order). -/
def uniqueTerms (occ : List (Nat × Str)) : List Str :=
  (occ.map Prod.snd).dedup

/-- Python `max(terms, key=len)`: the first longest element. -/
def maxByLen : List Str → Str
  | [] => []
  | h :: tl => tl.foldl (fun b x => if b.length < x.length then x else b) h

/-- Python `sep.join(parts)`. -/
def joinSep (sep : Str) : List Str → Str
  | [] => []
  | h :: tl => tl.foldl (fun acc x => acc ++ sep ++ x) h

/-- The function `ConsistencyChecker._check_terminology_consistency`, restricted to the
`inconsistencies` list of the dict it returns: one medium-severity finding per
normalized key carrying more than one distinct surface form, naming all the
variants and recommending the longest one, with confidence 0.8. -/
def check_terminology_consistency (extract : Str → List Str) (chunks : List TextChunk) :
    List Inconsistency :=
  (termVariations (termCollections extract chunks)).filterMap fun kv =>
    let unique := uniqueTerms kv.2
    if 1 < unique.length then
      some { type := "terminology".toList, severity := "medium".toList,
             description := "术语\"".toList ++ kv.1 ++ "\"存在不一致表述: ".toList
               ++ joinSep ", ".toList unique,
             location := joinSep ", ".toList
               (kv.2.map fun oc => "文本块".toList ++ (toString oc.1).toList),
             suggestion := "请统一使用\"".toList ++ maxByLen unique ++ "\"作为标准表述".toList,
             confidence := 8 / 10 }
    else none

/-! ### Chunk dispatch orchestrator (`chunk_processor.py`, `reviewer.py`) -/

/-- The observable per-chunk outcome of `ChunkProcessor.process_chunk`: the
`try` body (prompt building, the awaited gateway call, response parsing) either
yields a structured payload `ρ`, merged with the chunk's id, or raises, in
which case the `except` arm returns the failure dict carrying the chunk id,
the error description, an empty issue list, score 0 and a failure note. -/
inductive ChunkOutcome (ρ : Type) where
  | success (chunk_id : Nat) (payload : ρ)
  | failure (chunk_id : Nat) (error : Str)
  deriving DecidableEq, Repr

/-- The chunk id recorded in an outcome. -/
def ChunkOutcome.cid {ρ : Type} : ChunkOutcome ρ → Nat
  | .success c _ => c
  | .failure c _ => c

/-- The function `ChunkProcessor.process_chunk` with the gateway-and-parse composite
abstracted as `ai` (an exception anywhere in the `try` body is an `error`). -/
def process_chunk {ρ : Type} (ai : TextChunk → Except Str ρ) (chunk : TextChunk) :
    ChunkOutcome ρ :=
  match ai chunk with
  | .ok r => .success chunk.chunk_id r
  | .error e => .failure chunk.chunk_id e

/-- The function `LongTextReviewer._process_chunks_parallel`: one task per chunk;
`asyncio.gather` returns the results in task order, so the observable result
is the in-order list of per-chunk outcomes. -/
def process_chunks_parallel {ρ : Type} (ai : TextChunk → Except Str ρ)
    (chunks : List TextChunk) : List (ChunkOutcome ρ) :=
  chunks.map (process_chunk ai)

/-! ### Spec-level predicates used by the claims -/

/-- Formalisation of "the ordered union of the returned chunks' `[start, end)`
spans covers the whole source text" (spec §8, §3): the sequence is non-empty,
starts at offset 0, its final span reaches the end of the text, consecutive
spans leave no gap, and every span is non-degenerate — together these make the
union of the spans a superset of `[0, n)`. -/
def spansCover (n : Nat) (cs : List TextChunk) : Prop :=
  cs ≠ [] ∧
  (cs.getD 0 dummyChunk).start_pos = 0 ∧
  (n : Int) ≤ (cs.getD (cs.length - 1) dummyChunk).end_pos ∧
  (∀ i < cs.length - 1, (cs.getD (i + 1) dummyChunk).start_pos ≤ (cs.getD i dummyChunk).end_pos) ∧
  (∀ i < cs.length, (cs.getD i dummyChunk).start_pos < (cs.getD i dummyChunk).end_pos)

/-- Formalisation of "the region shared by two adjacent chunks never exceeds
the configured overlap". -/
def overlapWithin (ov : Nat) (cs : List TextChunk) : Prop :=
  ∀ i < cs.length - 1,
    (cs.getD i dummyChunk).end_pos - (cs.getD (i + 1) dummyChunk).start_pos ≤ (ov : Int)

/-- Formalisation of "the i-th returned chunk has id i". -/
def idsSequential (cs : List TextChunk) : Prop :=
  cs.map TextChunk.chunk_id = List.range cs.length

instance (n : Nat) (cs : List TextChunk) : Decidable (spansCover n cs) := by
  unfold spansCover; infer_instance

instance (ov : Nat) (cs : List TextChunk) : Decidable (overlapWithin ov cs) := by
  unfold overlapWithin; infer_instance

instance (cs : List TextChunk) : Decidable (idsSequential cs) := by
  unfold idsSequential; infer_instance

/-! ### Lemmas about the Python primitives -/

theorem pyIdx_le (n : Nat) (i : Int) : pyIdx n i ≤ n := by
  unfold pyIdx; split <;> omega

theorem pyIdx_add_le (n : Nat) (s : Int) (m : Nat) :
    pyIdx n (s + (m : Int)) ≤ pyIdx n s + m := by
  unfold pyIdx; split <;> split <;> omega

theorem pyIdx_of_ge (n : Nat) (i : Int) (h : (n : Int) ≤ i) : pyIdx n i = n := by
  unfold pyIdx; split <;> omega

theorem length_pySlice (t : Str) (s e : Int) :
    (pySlice t s e).length = pyIdx t.length e - pyIdx t.length s := by
  have he := pyIdx_le t.length e
  simp only [pySlice, List.length_drop, List.length_take]
  omega

theorem foldl_rfind_aux (t : Str) (c : Char) (lo hi : Nat) (l : List Nat) (a : Int)
    (ha : a = -1 ∨ (0 ≤ a ∧ (lo : Int) ≤ a ∧ a < (hi : Int)))
    (hmem : ∀ x ∈ l, lo ≤ x ∧ x < hi) :
    (l.foldl (fun acc i => if t.get? i = some c then (i : Int) else acc) a) = -1 ∨
      (0 ≤ l.foldl (fun acc i => if t.get? i = some c then (i : Int) else acc) a ∧
        (lo : Int) ≤ l.foldl (fun acc i => if t.get? i = some c then (i : Int) else acc) a ∧
        l.foldl (fun acc i => if t.get? i = some c then (i : Int) else acc) a < (hi : Int)) := by
  induction l generalizing a with
  | nil => exact ha
  | cons x xs ih =>
    simp only [List.foldl_cons]
    apply ih
    · by_cases hx : t.get? x = some c
      · have := hmem x (by simp)
        right
        simp only [if_pos hx]
        omega
      · simp only [if_neg hx]
        exact ha
    · intro y hy
      exact hmem y (List.mem_cons_of_mem _ hy)

theorem rfind_bounds (t : Str) (c : Char) (s e : Int) :
    rfind t c s e = -1 ∨
      (0 ≤ rfind t c s e ∧ (pyIdx t.length s : Int) ≤ rfind t c s e ∧
        rfind t c s e < (pyIdx t.length e : Int)) := by
  unfold rfind
  apply foldl_rfind_aux
  · left; rfl
  · intro x hx
    have := List.mem_range'_1.mp hx
    omega

theorem max_either_bounds {lo hi : Nat} {a b : Int}
    (ha : a = -1 ∨ (0 ≤ a ∧ (lo : Int) ≤ a ∧ a < (hi : Int)))
    (hb : b = -1 ∨ (0 ≤ b ∧ (lo : Int) ≤ b ∧ b < (hi : Int))) :
    max a b = -1 ∨ (0 ≤ max a b ∧ (lo : Int) ≤ max a b ∧ max a b < (hi : Int)) := by
  rcases ha with ha | ha <;> rcases hb with hb | hb <;> omega

theorem sentenceEnd_bounds (t : Str) (s e : Int) :
    sentenceEnd t s e = -1 ∨
      (0 ≤ sentenceEnd t s e ∧ (pyIdx t.length s : Int) ≤ sentenceEnd t s e ∧
        sentenceEnd t s e < (pyIdx t.length e : Int)) := by
  unfold sentenceEnd
  exact max_either_bounds (rfind_bounds ..)
    (max_either_bounds (rfind_bounds ..)
      (max_either_bounds (rfind_bounds ..)
        (max_either_bounds (rfind_bounds ..)
          (max_either_bounds (rfind_bounds ..) (rfind_bounds ..)))))

/-- The window start is always strictly below the (possibly snapped) end. -/
theorem chooseEnd_gt (t : Str) (s e0 : Int) (h : s < e0) : s < chooseEnd t s e0 := by
  simp only [chooseEnd]
  split
  · omega
  · split <;> omega

theorem pyIdx_le_of_le (n : Nat) (x : Int) (m : Nat) (h0 : 0 ≤ x) (hx : x ≤ (m : Int))
    (hm : m ≤ n) : pyIdx n x ≤ m := by
  unfold pyIdx; split <;> omega

/-- Snapping never moves the effective (slice-normalised) window end to the
right. -/
theorem chooseEnd_pyIdx_le (t : Str) (s e0 : Int) :
    pyIdx t.length (chooseEnd t s e0) ≤ pyIdx t.length e0 := by
  have hse := sentenceEnd_bounds t s e0
  have hsp := rfind_bounds t ' ' s e0
  have hle := pyIdx_le t.length e0
  simp only [chooseEnd]
  split
  · rcases hse with hse | hse
    · rw [hse]
      exact pyIdx_le_of_le _ _ _ (by omega) (by omega) hle
    · exact pyIdx_le_of_le _ _ _ (by omega) (by omega) hle
  · split
    · rcases hsp with hsp | hsp
      · omega
      · exact pyIdx_le_of_le _ _ _ (by omega) (by omega) hle
    · exact le_refl _

/-! ### Invariants of the fixed-size window loop -/

theorem windowEnd_gt (cfg : SplitConfig) (t : Str) (start : Int)
    (hmax : 1 ≤ cfg.max_chunk_size) : start < windowEnd cfg t start := by
  unfold windowEnd
  split
  · exact chooseEnd_gt _ _ _ (by omega)
  · omega

/-- A snapped (non-final) window's slice never exceeds `max_chunk_size`. -/
theorem windowChunk_content_le (cfg : SplitConfig) (t : Str) (start : Int) (cid : Nat)
    (hlt : windowEnd cfg t start < (t.length : Int)) :
    (windowChunk cfg t start cid).content.length ≤ cfg.max_chunk_size := by
  have he0 : windowEnd cfg t start = chooseEnd t start (start + (cfg.max_chunk_size : Int)) := by
    unfold windowEnd
    split
    · rfl
    · unfold windowEnd at hlt
      split at hlt <;> omega
  have h1 := chooseEnd_pyIdx_le t start (start + (cfg.max_chunk_size : Int))
  have h2 := pyIdx_add_le t.length start cfg.max_chunk_size
  simp only [windowChunk, length_pySlice, he0]
  omega

/-- The master invariant of the `_split_by_fixed_size` loop: whenever the
source loop terminates (`some cs`) starting inside the text, the produced
chunk list is non-empty, starts at the initial offset, reaches past the end
of the text, chains every next start exactly `chunk_overlap` before the
previous end, has strictly increasing spans, keeps every non-final content
within `max_chunk_size`, and numbers the chunks consecutively from `cid`. -/
theorem fixedLoop_inv (cfg : SplitConfig) (t : Str) (hmax : 1 ≤ cfg.max_chunk_size) :
    ∀ fuel (start : Int) (cid : Nat) (cs : List TextChunk),
      fixedLoop cfg t fuel start cid = some cs → start < (t.length : Int) →
      cs ≠ [] ∧
      (cs.getD 0 dummyChunk).start_pos = start ∧
      ((t.length : Int) ≤ (cs.getD (cs.length - 1) dummyChunk).end_pos) ∧
      (∀ i, i < cs.length - 1 →
        (cs.getD (i + 1) dummyChunk).start_pos
          = (cs.getD i dummyChunk).end_pos - (cfg.chunk_overlap : Int)) ∧
      (∀ i, i < cs.length →
        (cs.getD i dummyChunk).start_pos < (cs.getD i dummyChunk).end_pos) ∧
      (∀ i, i < cs.length - 1 → (cs.getD i dummyChunk).content.length ≤ cfg.max_chunk_size) ∧
      cs.map TextChunk.chunk_id = List.range' cid cs.length := by
  intro fuel
  induction fuel with
  | zero =>
    intro start cid cs h
    exact absurd h (by simp [fixedLoop])
  | succ f ih =>
    intro start cid cs h hlt
    rw [fixedLoop, if_pos hlt] at h
    rcases hrec : fixedLoop cfg t f (nextFrom cfg t (windowEnd cfg t start)) (cid + 1) with _ | cs'
    · rw [hrec] at h; exact absurd h (by simp)
    rw [hrec] at h
    simp only [Option.map_some', Option.some.injEq] at h
    subst h
    have hgt := windowEnd_gt cfg t start hmax
    by_cases hend : windowEnd cfg t start < (t.length : Int)
    · -- non-final window: the loop continues
      have hnext : nextFrom cfg t (windowEnd cfg t start)
          = windowEnd cfg t start - (cfg.chunk_overlap : Int) := by
        unfold nextFrom; rw [if_pos hend]
      have hlt' : nextFrom cfg t (windowEnd cfg t start) < (t.length : Int) := by
        rw [hnext]; omega
      obtain ⟨hne', hfirst', hlast', hchain', hspan', hlen', hids'⟩ :=
        ih (nextFrom cfg t (windowEnd cfg t start)) (cid + 1) cs' hrec hlt'
      have hlenpos : 0 < cs'.length := List.length_pos.mpr hne'
      refine ⟨by simp, by simp [windowChunk], ?_, ?_, ?_, ?_, ?_⟩
      · have hidx : (windowChunk cfg t start cid :: cs').length - 1 = (cs'.length - 1) + 1 := by
          simp; omega
        rw [hidx, List.getD_cons_succ]
        exact hlast'
      · intro i hi
        simp only [List.length_cons] at hi
        match i with
        | 0 =>
          simp only [List.getD_cons_succ, List.getD_cons_zero]
          rw [hfirst', hnext]
          simp [windowChunk]
        | Nat.succ j =>
          simp only [List.getD_cons_succ]
          exact hchain' j (by omega)
      · intro i hi
        simp only [List.length_cons] at hi
        match i with
        | 0 => simpa [windowChunk] using hgt
        | Nat.succ j =>
          simp only [List.getD_cons_succ]
          exact hspan' j (by omega)
      · intro i hi
        simp only [List.length_cons] at hi
        match i with
        | 0 =>
          simp only [List.getD_cons_zero]
          exact windowChunk_content_le cfg t start cid hend
        | Nat.succ j =>
          simp only [List.getD_cons_succ]
          exact hlen' j (by omega)
      · simp only [List.map_cons, List.length_cons, List.range'_succ]
        simp [windowChunk, hids']
    · -- final window: the next guard fails, so the tail is empty
      have hnext : nextFrom cfg t (windowEnd cfg t start) = windowEnd cfg t start := by
        unfold nextFrom; rw [if_neg hend]
      have hcs' : cs' = [] := by
        rcases f with _ | f'
        · simp [fixedLoop] at hrec
        · rw [fixedLoop, hnext, if_neg hend] at hrec
          simpa using hrec.symm
      subst hcs'
      refine ⟨by simp, by simp [windowChunk], ?_, ?_, ?_, ?_, ?_⟩
      · simpa [windowChunk] using (by omega : (t.length : Int) ≤ windowEnd cfg t start)
      · intro i hi; simp at hi
      · intro i hi
        simp only [List.length_cons, List.length_nil] at hi
        match i with
        | 0 => simpa [windowChunk] using hgt
      · intro i hi; simp at hi
      · simp [windowChunk]

/-- The paragraph packing loop numbers its chunks consecutively from `cid`. -/
theorem paraPack_ids (cfg : SplitConfig) :
    ∀ (ps : List Str) (current : Str) (cid : Nat),
      (paraPack cfg ps current cid).map TextChunk.chunk_id
        = List.range' cid (paraPack cfg ps current cid).length := by
  intro ps
  induction ps with
  | nil =>
    intro current cid
    rw [paraPack]
    split <;> simp
  | cons p rest ih =>
    intro current cid
    rw [paraPack]
    split
    · exact ih current cid
    · split
      · simp only [List.map_cons, List.length_cons, List.range'_succ]
        rw [ih (pyStrip p) (cid + 1)]
      · exact ih _ cid

/-- The function `_split_by_fixed_size` numbers its chunks `0, 1, 2, …` whenever the loop
terminates. -/
theorem split_by_fixed_size_ids (cfg : SplitConfig) (t : Str) (fuel : Nat)
    (cs : List TextChunk) (hmax : 1 ≤ cfg.max_chunk_size)
    (h : split_by_fixed_size cfg t fuel = some cs) : idsSequential cs := by
  unfold split_by_fixed_size at h
  by_cases hlen : (0 : Int) < (t.length : Int)
  · obtain ⟨-, -, -, -, -, -, hids⟩ := fixedLoop_inv cfg t hmax fuel 0 0 cs h hlen
    unfold idsSequential
    rw [hids, List.range_eq_range']
  · have hcs : cs = [] := by
      rcases fuel with _ | f
      · simp [fixedLoop] at h
      · rw [fixedLoop, if_neg hlen] at h
        simpa using h.symm
    simp [hcs, idsSequential]

/-- C6.  The claim as stated is refuted by `C6_counterexample` below: under
the chapter strategy, an oversized chapter is re-segmented by
`_split_large_content`, whose sub-chunk ids restart at 0, so ids repeat.  The
amended claim: under the paragraph and fixed-size strategies the i-th returned
chunk has id i (so ids are pairwise distinct and in scan order). -/
theorem ids_sequential_paragraph_fixed :
    (∀ (cfg : SplitConfig) (t : Str), idsSequential (split_by_paragraph cfg t)) ∧
    (∀ (cfg : SplitConfig) (t : Str) (fuel : Nat) (cs : List TextChunk),
      1 ≤ cfg.max_chunk_size → split_by_fixed_size cfg t fuel = some cs →
      idsSequential cs) := by
  constructor
  · intro cfg t
    unfold idsSequential split_by_paragraph
    rw [paraPack_ids, List.range_eq_range']
  · intro cfg t fuel cs hmax h
    exact split_by_fixed_size_ids cfg t fuel cs hmax h

/-- C6, witness for the amended theorem at concrete inputs. -/
theorem ids_sequential_paragraph_fixed_witness :
    idsSequential (split_by_paragraph ⟨"paragraph".toList, 3, 1, 1⟩ "p1\n\np2".toList) ∧
    (1 ≤ 3 ∧ idsSequential [windowChunk ⟨"fixed_size".toList, 3, 1, 1⟩ "aaaa".toList 0 0,
      windowChunk ⟨"fixed_size".toList, 3, 1, 1⟩ "aaaa".toList 2 1]) := by
  refine ⟨ids_sequential_paragraph_fixed.1 _ _, by norm_num, ?_⟩
  exact ids_sequential_paragraph_fixed.2 ⟨"fixed_size".toList, 3, 1, 1⟩ "aaaa".toList 10 _
    (by norm_num) (by decide)

/-- C6, counterexample to the claim as stated: chapter strategy, two detected
chapter headings, the second chapter oversized; the returned ids are
`[0, 0, 1, 2]` — neither pairwise unique nor equal to their positions. -/
theorem ids_sequential_counterexample :
    (split_by_chapter ⟨"chapter".toList, 3, 1, 1⟩ [(0, 1, ['A']), (2, 3, ['B'])]
        "AxBcdefg".toList 10).map (fun cs => cs.map TextChunk.chunk_id)
      = some [0, 0, 1, 2] ∧
    ¬ List.Nodup [0, 0, 1, 2] ∧ [0, 0, 1, 2] ≠ List.range 4 := by
  refine ⟨by decide, by decide, by decide⟩

/-- C1.  The claim as stated (every strategy) is refuted by
`spans_cover_counterexample` below: the paragraph (and semantic) strategies
leave `start_pos`/`end_pos` at their default 0, so the spans cannot cover a
non-empty text.  The amended claim: under the fixed-size strategy, whenever
the splitting loop terminates, the ordered chunk spans cover the whole text
and the region shared by adjacent chunks is at most `chunk_overlap`. -/
theorem fixed_size_spans_cover (cfg : SplitConfig) (ms : List (Nat × Nat × Str)) (t : Str)
    (fuel : Nat) (cs : List TextChunk) (hstrat : cfg.strategy = "fixed_size".toList)
    (hmax : 1 ≤ cfg.max_chunk_size) (ht : t ≠ [])
    (h : split_text cfg ms t fuel = .ok (some cs)) :
    spansCover t.length cs ∧ overlapWithin cfg.chunk_overlap cs := by
  have hd : split_text cfg ms t fuel = .ok (split_by_fixed_size cfg t fuel) := by
    rw [split_text, hstrat]
    rw [if_neg (by decide), if_neg (by decide), if_neg (by decide), if_pos rfl]
  rw [hd] at h
  simp only [Except.ok.injEq] at h
  have hlen : (0 : Int) < (t.length : Int) := by
    have := List.length_pos.mpr ht
    exact_mod_cast this
  obtain ⟨hne, hfirst, hlast, hchain, hspan, -, -⟩ :=
    fixedLoop_inv cfg t hmax fuel 0 0 cs h hlen
  refine ⟨⟨hne, hfirst, hlast, ?_, hspan⟩, ?_⟩
  · intro i hi
    rw [hchain i hi]
    omega
  · intro i hi
    rw [hchain i hi]
    omega

/-- C1, witness for the amended theorem at a concrete input. -/
theorem fixed_size_spans_cover_witness :
    spansCover ("aaaa".toList.length)
        [⟨"aaa".toList, 0, none, none, 0, 3⟩, ⟨"aa".toList, 1, none, none, 2, 5⟩] ∧
    overlapWithin 1 [⟨"aaa".toList, 0, none, none, 0, 3⟩, ⟨"aa".toList, 1, none, none, 2, 5⟩] :=
  fixed_size_spans_cover ⟨"fixed_size".toList, 3, 1, 1⟩ [] "aaaa".toList 10 _
    rfl (by norm_num) (by decide) rfl

/-- C1, counterexample to the claim as stated: the paragraph strategy on the
non-empty text `"ab"` returns one chunk whose span is the default `[0, 0)`,
which does not cover the two-character text. -/
theorem spans_cover_counterexample :
    split_text ⟨"paragraph".toList, 8000, 200, 1000⟩ [] "ab".toList 1
        = .ok (some [{ content := "ab".toList, chunk_id := 0 }]) ∧
    ¬ spansCover ("ab".toList.length) [{ content := "ab".toList, chunk_id := 0 }] := by
  exact ⟨rfl, by decide⟩

/-- C2.  Every chunk produced by the fixed-size strategy except the final one
has content length at most `max_chunk_size` (hence at most
`max_chunk_size + 1`): the snap only ever moves the window end leftwards. -/
theorem fixed_size_content_bounded (cfg : SplitConfig) (t : Str) (fuel : Nat)
    (cs : List TextChunk) (hmax : 1 ≤ cfg.max_chunk_size)
    (h : split_by_fixed_size cfg t fuel = some cs) :
    ∀ i, i < cs.length - 1 →
      (cs.getD i dummyChunk).content.length ≤ cfg.max_chunk_size + 1 := by
  by_cases hlen : (0 : Int) < (t.length : Int)
  · obtain ⟨-, -, -, -, -, hbnd, -⟩ :=
      fixedLoop_inv cfg t hmax fuel 0 0 cs h hlen
    intro i hi
    exact le_trans (hbnd i hi) (by omega)
  · unfold split_by_fixed_size at h
    have hcs : cs = [] := by
      rcases fuel with _ | f
      · simp [fixedLoop] at h
      · rw [fixedLoop, if_neg hlen] at h
        simpa using h.symm
    subst hcs
    intro i hi
    simp at hi

/-- C2, witness at a concrete input: the first of the two chunks of `"aaaa"`
(max 3, overlap 1) has content length 3 ≤ 4. -/
theorem fixed_size_content_bounded_witness :
    ([⟨"aaa".toList, 0, none, none, 0, 3⟩,
      ⟨"aa".toList, 1, none, none, 2, 5⟩].getD 0 dummyChunk).content.length ≤ 3 + 1 :=
  fixed_size_content_bounded ⟨"fixed_size".toList, 3, 1, 1⟩ "aaaa".toList 10 _
    (by norm_num) (by decide) 0 (by norm_num)

/-- The `rfind` fold never moves off its initial accumulator when no index of
the text holds the needle character. -/
theorem foldl_rfind_id (t : Str) (c : Char) (hnone : ∀ i : Nat, t.get? i ≠ some c) :
    ∀ (l : List Nat) (a : Int),
      l.foldl (fun acc i => if t.get? i = some c then (i : Int) else acc) a = a := by
  intro l
  induction l with
  | nil => intro a; rfl
  | cons x xs ih =>
    intro a
    simp only [List.foldl_cons, if_neg (hnone x)]
    exact ih a

theorem rfind_of_absent (t : Str) (c : Char) (s e : Int)
    (hnone : ∀ i : Nat, t.get? i ≠ some c) : rfind t c s e = -1 := by
  unfold rfind
  exact foldl_rfind_id t c hnone _ _

/-- On a text consisting only of the letter `a` (no sentence terminators, no
spaces), the window never snaps: the end is always `start + max_chunk_size`. -/
theorem windowEnd_all_a (cfg : SplitConfig) (t : Str)
    (ha : ∀ (i : Nat) (x : Char), t.get? i = some x → x = 'a') (start : Int)
    (h0 : 0 ≤ start) : windowEnd cfg t start = start + (cfg.max_chunk_size : Int) := by
  have habs : ∀ c : Char, c ≠ 'a' → ∀ i : Nat, t.get? i ≠ some c := by
    intro c hc i hi
    exact hc (ha i c hi)
  unfold windowEnd
  split
  · unfold chooseEnd sentenceEnd
    rw [rfind_of_absent t '。' _ _ (habs _ (by decide)),
      rfind_of_absent t '？' _ _ (habs _ (by decide)),
      rfind_of_absent t '！' _ _ (habs _ (by decide)),
      rfind_of_absent t '.' _ _ (habs _ (by decide)),
      rfind_of_absent t '?' _ _ (habs _ (by decide)),
      rfind_of_absent t '!' _ _ (habs _ (by decide)),
      rfind_of_absent t ' ' _ _ (habs _ (by decide))]
    rw [if_neg (by omega), if_neg (by omega)]
  · rfl

/-- C8.  The claim as stated is refuted by `window_chain_counterexample`
below: the final chunk's recorded `end_pos` is `start + max_chunk_size`, which
overshoots the text end whenever the remainder is shorter than a full window.
The amended claim: every non-final chunk satisfies
`start[i+1] = end[i] - overlap`; the final chunk's *content* ends exactly at
the text's end (its slice-normalised end index is the text length); and the
20,000-character scenario yields exactly 3 chunks with offsets
`(0,8000), (7800,15800), (15600,23600)`. -/
theorem fixed_size_window_chain :
    (∀ (cfg : SplitConfig) (t : Str) (fuel : Nat) (cs : List TextChunk),
      1 ≤ cfg.max_chunk_size → split_by_fixed_size cfg t fuel = some cs →
      (∀ i, i < cs.length - 1 →
        (cs.getD (i + 1) dummyChunk).start_pos
          = (cs.getD i dummyChunk).end_pos - (cfg.chunk_overlap : Int)) ∧
      (cs ≠ [] → pyIdx t.length (cs.getD (cs.length - 1) dummyChunk).end_pos = t.length)) ∧
    (split_by_fixed_size ⟨"fixed_size".toList, 8000, 200, 1000⟩
        (List.replicate 20000 'a') 4).map (List.map fun c => (c.start_pos, c.end_pos))
      = some [(0, 8000), (7800, 15800), (15600, 23600)] := by
  constructor
  · intro cfg t fuel cs hmax h
    by_cases hlen : (0 : Int) < (t.length : Int)
    · obtain ⟨hne, -, hlast, hchain, -, -, -⟩ := fixedLoop_inv cfg t hmax fuel 0 0 cs h hlen
      exact ⟨hchain, fun _ => pyIdx_of_ge _ _ hlast⟩
    · have hcs : cs = [] := by
        unfold split_by_fixed_size at h
        rcases fuel with _ | f
        · simp [fixedLoop] at h
        · rw [fixedLoop, if_neg hlen] at h
          simpa using h.symm
      subst hcs
      exact ⟨fun i hi => by simp at hi, fun hne => absurd rfl hne⟩
  · have ha : ∀ (i : Nat) (x : Char), (List.replicate 20000 'a').get? i = some x → x = 'a' := by
      intro i x h
      exact List.eq_of_mem_replicate (List.get?_mem h)
    have hl : ((List.replicate 20000 'a').length : Int) = 20000 := by
      rw [List.length_replicate]
      norm_num
    have hstep : ∀ (f : Nat) (s : Int) (cid : Nat), s < 20000 →
        fixedLoop ⟨"fixed_size".toList, 8000, 200, 1000⟩ (List.replicate 20000 'a')
            (f + 1) s cid
          = (fixedLoop ⟨"fixed_size".toList, 8000, 200, 1000⟩ (List.replicate 20000 'a') f
              (nextFrom ⟨"fixed_size".toList, 8000, 200, 1000⟩ (List.replicate 20000 'a')
                (windowEnd ⟨"fixed_size".toList, 8000, 200, 1000⟩
                  (List.replicate 20000 'a') s)) (cid + 1)).map
              (windowChunk ⟨"fixed_size".toList, 8000, 200, 1000⟩
                (List.replicate 20000 'a') s cid :: ·) := by
      intro f s cid hs
      rw [fixedLoop, if_pos (by rw [hl]; exact hs)]
    have hW0 : windowEnd ⟨"fixed_size".toList, 8000, 200, 1000⟩
        (List.replicate 20000 'a') 0 = 8000 := by
      rw [windowEnd_all_a _ _ ha 0 (by norm_num)]
      norm_num
    have hW1 : windowEnd ⟨"fixed_size".toList, 8000, 200, 1000⟩
        (List.replicate 20000 'a') 7800 = 15800 := by
      rw [windowEnd_all_a _ _ ha 7800 (by norm_num)]
      norm_num
    have hW2 : windowEnd ⟨"fixed_size".toList, 8000, 200, 1000⟩
        (List.replicate 20000 'a') 15600 = 23600 := by
      rw [windowEnd_all_a _ _ ha 15600 (by norm_num)]
      norm_num
    have hN0 : nextFrom ⟨"fixed_size".toList, 8000, 200, 1000⟩
        (List.replicate 20000 'a') 8000 = 7800 := by
      unfold nextFrom
      rw [hl, if_pos (by norm_num)]
      norm_num
    have hN1 : nextFrom ⟨"fixed_size".toList, 8000, 200, 1000⟩
        (List.replicate 20000 'a') 15800 = 15600 := by
      unfold nextFrom
      rw [hl, if_pos (by norm_num)]
      norm_num
    have hN2 : nextFrom ⟨"fixed_size".toList, 8000, 200, 1000⟩
        (List.replicate 20000 'a') 23600 = 23600 := by
      unfold nextFrom
      rw [hl, if_neg (by norm_num)]
    have h3 : fixedLoop ⟨"fixed_size".toList, 8000, 200, 1000⟩ (List.replicate 20000 'a')
        4 0 0 = (fixedLoop ⟨"fixed_size".toList, 8000, 200, 1000⟩ (List.replicate 20000 'a')
          3 7800 1).map
            (windowChunk ⟨"fixed_size".toList, 8000, 200, 1000⟩
              (List.replicate 20000 'a') 0 0 :: ·) := by
      have := hstep 3 0 0 (by norm_num)
      rw [hW0, hN0] at this
      exact this
    have h2 : fixedLoop ⟨"fixed_size".toList, 8000, 200, 1000⟩ (List.replicate 20000 'a')
        3 7800 1 = (fixedLoop ⟨"fixed_size".toList, 8000, 200, 1000⟩ (List.replicate 20000 'a')
          2 15600 2).map
            (windowChunk ⟨"fixed_size".toList, 8000, 200, 1000⟩
              (List.replicate 20000 'a') 7800 1 :: ·) := by
      have := hstep 2 7800 1 (by norm_num)
      rw [hW1, hN1] at this
      exact this
    have h1 : fixedLoop ⟨"fixed_size".toList, 8000, 200, 1000⟩ (List.replicate 20000 'a')
        2 15600 2 = (fixedLoop ⟨"fixed_size".toList, 8000, 200, 1000⟩ (List.replicate 20000 'a')
          1 23600 3).map
            (windowChunk ⟨"fixed_size".toList, 8000, 200, 1000⟩
              (List.replicate 20000 'a') 15600 2 :: ·) := by
      have := hstep 1 15600 2 (by norm_num)
      rw [hW2, hN2] at this
      exact this
    have h0 : fixedLoop ⟨"fixed_size".toList, 8000, 200, 1000⟩ (List.replicate 20000 'a')
        1 23600 3 = some [] := by
      rw [fixedLoop, if_neg (by rw [hl]; norm_num)]
    rw [split_by_fixed_size, h3, h2, h1, h0]
    simp only [Option.map_some', List.map_cons, List.map_nil]
    simp only [windowChunk, hW0, hW1, hW2]

/-- C8, witness for the amended theorem at a concrete input (`"aaaa"`,
max 3, overlap 1, chunks `[0,3)` and `[2,5)`): the second start is the first
end minus the overlap, and the final end slice-normalises to the text length. -/
theorem fixed_size_window_chain_witness :
    (([⟨"aaa".toList, 0, none, none, 0, 3⟩,
        ⟨"aa".toList, 1, none, none, 2, 5⟩] : List TextChunk).getD 1 dummyChunk).start_pos
      = (([⟨"aaa".toList, 0, none, none, 0, 3⟩,
          ⟨"aa".toList, 1, none, none, 2, 5⟩] : List TextChunk).getD 0 dummyChunk).end_pos
        - ((1 : Nat) : Int) ∧
    pyIdx ("aaaa".toList.length)
        (([⟨"aaa".toList, 0, none, none, 0, 3⟩,
          ⟨"aa".toList, 1, none, none, 2, 5⟩] : List TextChunk).getD 1 dummyChunk).end_pos
      = "aaaa".toList.length := by
  obtain ⟨hchain, hlast⟩ :=
    fixed_size_window_chain.1 ⟨"fixed_size".toList, 3, 1, 1⟩ "aaaa".toList 10
      [⟨"aaa".toList, 0, none, none, 0, 3⟩, ⟨"aa".toList, 1, none, none, 2, 5⟩]
      (by norm_num) (by decide)
  exact ⟨hchain 0 (by norm_num), hlast (by decide)⟩

/-- C8, counterexample to the claim as stated: on `"aaaa"` with
`max_chunk_size = 3`, `chunk_overlap = 1`, the final chunk records
`end_pos = 5`, not the text end 4. -/
theorem window_chain_counterexample :
    (split_by_fixed_size ⟨"fixed_size".toList, 3, 1, 1⟩ "aaaa".toList 10).map
        (List.map fun c => (c.start_pos, c.end_pos)) = some [(0, 3), (2, 5)] ∧
    ("aaaa".toList.length : Int) = 4 ∧ (5 : Int) ≠ 4 := by
  exact ⟨by decide, by decide, by decide⟩

/-- C3.  When the chapter strategy finds no boundary matches, `split_text`
returns exactly the fixed-size segmentation of the same text under the same
bounds (`_split_by_chapter` falls back to `_split_by_fixed_size`). -/
theorem chapter_no_match_fallback (cfg : SplitConfig) (ms : List (Nat × Nat × Str))
    (t : Str) (fuel : Nat) (hstrat : cfg.strategy = "chapter".toList) (hms : ms = []) :
    split_text cfg ms t fuel = .ok (split_by_fixed_size cfg t fuel) := by
  subst hms
  rw [split_text, hstrat, if_pos rfl]
  rfl

/-- C3, witness at a concrete input: chapter strategy with zero matches on a
text with no structure produces the fixed-size output. -/
theorem chapter_no_match_fallback_witness :
    split_text ⟨"chapter".toList, 3, 1, 1⟩ [] "aaaa".toList 10
      = .ok (split_by_fixed_size ⟨"chapter".toList, 3, 1, 1⟩ "aaaa".toList 10) :=
  chapter_no_match_fallback ⟨"chapter".toList, 3, 1, 1⟩ [] "aaaa".toList 10 rfl rfl

/-- C4.  An unrecognized strategy name makes `split_text` fail with the
`ValueError` (spec: `ConfigurationError`) carrying the offending name, before
any strategy-specific splitting work is dispatched. -/
theorem split_text_unknown_strategy (cfg : SplitConfig) (ms : List (Nat × Nat × Str))
    (t : Str) (fuel : Nat)
    (h : cfg.strategy ∉ ["chapter".toList, "paragraph".toList,
      "semantic".toList, "fixed_size".toList]) :
    split_text cfg ms t fuel = .error ("不支持的分割策略: ".toList ++ cfg.strategy) := by
  simp only [List.mem_cons, List.mem_singleton, not_or] at h
  obtain ⟨h1, h2, h3, h4⟩ := h
  rw [split_text, if_neg h1, if_neg h2, if_neg h3, if_neg (by simpa using h4)]

/-- C4, witness at a concrete input. -/
theorem split_text_unknown_strategy_witness :
    split_text ⟨"hierarchical".toList, 8000, 200, 1000⟩ [] "ab".toList 1
      = .error ("不支持的分割策略: ".toList ++ "hierarchical".toList) :=
  split_text_unknown_strategy ⟨"hierarchical".toList, 8000, 200, 1000⟩ [] "ab".toList 1
    (by decide)

/-- Severity weights are strictly positive (the `dict.get` default is 1). -/
theorem penaltyWeight_pos (sev : Str) : 0 < penaltyWeight sev := by
  unfold penaltyWeight
  repeat' split
  all_goals norm_num

/-- The penalty fold is the sum of the per-issue penalties. -/
theorem foldl_penalty (l : List ReviewIssue) :
    ∀ a : ℚ, l.foldl (fun acc issue => acc + penaltyWeight issue.severity * issue.confidence) a
      = a + (l.map fun i => penaltyWeight i.severity * i.confidence).sum := by
  induction l with
  | nil => intro a; simp
  | cons x xs ih =>
    intro a
    simp only [List.foldl_cons, List.map_cons, List.sum_cons, ih]
    ring

/-- The score `calculate_overall_score` in closed form. -/
theorem calculate_overall_score_eq (l : List ReviewIssue) :
    calculate_overall_score l
      = if l = [] then (100 : ℚ)
        else max 0 (100 - (l.map fun i => penaltyWeight i.severity * i.confidence).sum) := by
  unfold calculate_overall_score
  split
  · rfl
  · rw [foldl_penalty]
    norm_num

/-- C5.  The overall score is 100 minus the severity-weighted,
confidence-scaled penalty sum, floored at 0 (and 100 on no findings); it lies
in [0, 100] for confidences in [0, ∞); and appending one more critical finding
never increases it.  The consistency sub-score is not an input of
`calculate_overall_score` at all, so it is not algebraically combined. -/
theorem overall_score_formula (issues : List ReviewIssue)
    (hconf : ∀ i ∈ issues, 0 ≤ i.confidence) (extra : ReviewIssue)
    (hsev : extra.severity = "critical".toList) (hc : 0 ≤ extra.confidence) :
    calculate_overall_score issues
        = (if issues = [] then (100 : ℚ)
           else max 0 (100 - (issues.map fun i => penaltyWeight i.severity * i.confidence).sum)) ∧
    0 ≤ calculate_overall_score issues ∧ calculate_overall_score issues ≤ 100 ∧
    calculate_overall_score (issues ++ [extra]) ≤ calculate_overall_score issues := by
  have hsum : 0 ≤ (issues.map fun i => penaltyWeight i.severity * i.confidence).sum := by
    apply List.sum_nonneg
    intro x hx
    simp only [List.mem_map] at hx
    obtain ⟨i, hi, rfl⟩ := hx
    exact mul_nonneg (le_of_lt (penaltyWeight_pos _)) (hconf i hi)
  have hw : penaltyWeight extra.severity = 20 := by
    rw [penaltyWeight, if_pos hsev]
  have hcrit : 0 ≤ penaltyWeight extra.severity * extra.confidence := by
    rw [hw]; positivity
  refine ⟨calculate_overall_score_eq issues, ?_, ?_, ?_⟩
  · rw [calculate_overall_score_eq]
    split
    · norm_num
    · exact le_max_left _ _
  · rw [calculate_overall_score_eq]
    split
    · norm_num
    · exact max_le (by norm_num) (by linarith)
  · rw [calculate_overall_score_eq, calculate_overall_score_eq,
      if_neg (by simp : ¬ issues ++ [extra] = [])]
    have hms : ((issues ++ [extra]).map fun i => penaltyWeight i.severity * i.confidence).sum
        = (issues.map fun i => penaltyWeight i.severity * i.confidence).sum
          + penaltyWeight extra.severity * extra.confidence := by
      simp
    rw [hms]
    split
    · rename_i hemp
      subst hemp
      simp only [List.map_nil, List.sum_nil, zero_add]
      exact max_le (by norm_num) (by linarith)
    · exact max_le_max (le_refl 0) (by linarith)

/-- C5, witness at a concrete input: no findings score 100, and adding one
critical finding of confidence 1 cannot raise the score. -/
theorem overall_score_formula_witness :
    calculate_overall_score []
        = (if ([] : List ReviewIssue) = [] then (100 : ℚ)
           else max 0 (100 - (([] : List ReviewIssue).map
             fun i => penaltyWeight i.severity * i.confidence).sum)) ∧
    0 ≤ calculate_overall_score [] ∧ calculate_overall_score ([] : List ReviewIssue) ≤ 100 ∧
    calculate_overall_score ([] ++ [⟨-1, [], [], "critical".toList, [], [], [], 1⟩])
      ≤ calculate_overall_score [] :=
  overall_score_formula [] (by simp) ⟨-1, [], [], "critical".toList, [], [], [], 1⟩
    rfl (by norm_num)

/-- C7.  Two chunks whose extracted terms are two distinct surface forms with
the same normalized comparison key yield exactly one terminology finding, of
medium severity, whose description names both surface forms and whose
suggestion recommends the longest variant. -/
theorem terminology_single_finding (extract : Str → List Str) (c1 c2 : TextChunk)
    (t1 t2 : Str) (h1 : extract c1.content = [t1]) (h2 : extract c2.content = [t2])
    (hne : t1 ≠ t2) (hkey : normalize_term t1 = normalize_term t2) :
    ∃ f, check_terminology_consistency extract [c1, c2] = [f] ∧
      f.severity = "medium".toList ∧
      t1 <:+: f.description ∧ t2 <:+: f.description ∧
      ∃ m, (m = t1 ∨ m = t2) ∧ t1.length ≤ m.length ∧ t2.length ≤ m.length ∧
        m <:+: f.suggestion := by
  have hcols : termCollections extract [c1, c2] = [(0, [t1]), (1, [t2])] := by
    unfold termCollections
    simp [List.enum, List.enumFrom, h1, h2]
  have hvars : termVariations [(0, [t1]), (1, [t2])]
      = [(normalize_term t1, [(0, t1), (1, t2)])] := by
    unfold termVariations
    simp only [List.foldl_cons, List.foldl_nil]
    show addOccurrence (addOccurrence [] (normalize_term t1) (0, t1))
        (normalize_term t2) (1, t2) = _
    rw [show addOccurrence [] (normalize_term t1) (0, t1)
        = [(normalize_term t1, [(0, t1)])] from rfl]
    unfold addOccurrence
    rw [if_pos hkey]
    rfl
  have hu : uniqueTerms [(0, t1), (1, t2)] = [t1, t2] := by
    unfold uniqueTerms
    simp only [List.map_cons, List.map_nil]
    rw [List.dedup_cons_of_not_mem (by simpa using hne)]
    rfl
  unfold check_terminology_consistency
  rw [hcols, hvars]
  simp only [List.filterMap, hu]
  rw [if_pos (by norm_num : (1 : Nat) < ([t1, t2] : List Str).length)]
  refine ⟨_, rfl, rfl, ?_, ?_, ?_⟩
  · refine ⟨"术语\"".toList ++ normalize_term t1 ++ "\"存在不一致表述: ".toList,
      ", ".toList ++ t2, ?_⟩
    show _ = _ ++ joinSep ", ".toList [t1, t2]
    unfold joinSep
    simp
  · refine ⟨"术语\"".toList ++ normalize_term t1 ++ "\"存在不一致表述: ".toList
      ++ t1 ++ ", ".toList, [], ?_⟩
    show _ = _ ++ joinSep ", ".toList [t1, t2]
    unfold joinSep
    simp
  · have hmax : maxByLen [t1, t2] = if t1.length < t2.length then t2 else t1 := by
      unfold maxByLen
      simp only [List.foldl_cons, List.foldl_nil]
    refine ⟨maxByLen [t1, t2], ?_, ?_, ?_, ?_⟩
    · rw [hmax]
      split
      · right; rfl
      · left; rfl
    · rw [hmax]
      split <;> omega
    · rw [hmax]
      split <;> omega
    · exact ⟨"请统一使用\"".toList, "\"作为标准表述".toList, rfl⟩

/-- C7, witness at the spec's concrete scenario: two chunks extracting the
surface forms `AI系统` and `Ai 系统`, which share the normalized key
`ai系统`. -/
theorem terminology_single_finding_witness :
    ∃ f, check_terminology_consistency
        (fun s => if s = "X".toList then ["AI系统".toList] else ["Ai 系统".toList])
        [{ content := "X".toList, chunk_id := 0 }, { content := "Y".toList, chunk_id := 1 }]
      = [f] ∧
      f.severity = "medium".toList ∧
      "AI系统".toList <:+: f.description ∧ "Ai 系统".toList <:+: f.description ∧
      ∃ m, (m = "AI系统".toList ∨ m = "Ai 系统".toList) ∧
        ("AI系统".toList).length ≤ m.length ∧ ("Ai 系统".toList).length ≤ m.length ∧
        m <:+: f.suggestion :=
  terminology_single_finding _ _ _ "AI系统".toList "Ai 系统".toList
    (by decide) (by decide) (by decide) (by decide)

/-- C9.  Dispatch isolation: if the gateway call fails on exactly the j-th
chunk (and is unchanged elsewhere), the orchestrator still returns one outcome
per chunk; the j-th outcome is a failure carrying that chunk's id and the
error description; and every other chunk's outcome is exactly what it would
have been with the unfailing gateway. -/
theorem dispatch_failure_isolated {ρ : Type} (ai ai' : TextChunk → Except Str ρ)
    (chunks : List TextChunk) (j : Nat) (cj : TextChunk) (e : Str)
    (hj : chunks.get? j = some cj) (hfail : ai' cj = .error e)
    (hsame : ∀ (i : Nat) (ci : TextChunk), i ≠ j → chunks.get? i = some ci →
      ai' ci = ai ci) :
    (process_chunks_parallel ai' chunks).length = chunks.length ∧
    (process_chunks_parallel ai' chunks).get? j = some (.failure cj.chunk_id e) ∧
    ∀ i : Nat, i ≠ j →
      (process_chunks_parallel ai' chunks).get? i
        = (process_chunks_parallel ai chunks).get? i := by
  refine ⟨by simp [process_chunks_parallel], ?_, ?_⟩
  · unfold process_chunks_parallel
    rw [List.get?_map, hj]
    simp only [Option.map_some']
    unfold process_chunk
    rw [hfail]
  · intro i hi
    unfold process_chunks_parallel
    rw [List.get?_map, List.get?_map]
    rcases hci : chunks.get? i with _ | ci
    · rfl
    · simp only [Option.map_some']
      unfold process_chunk
      rw [hsame i ci hi hci]

/-- C9, witness at a concrete input: two chunks, the second one's gateway call
failing. -/
theorem dispatch_failure_isolated_witness :
    (process_chunks_parallel
        (fun c => if c.chunk_id = 1 then (.error "timeout".toList : Except Str Nat) else .ok 7)
        [{ content := "u".toList, chunk_id := 0 }, { content := "v".toList, chunk_id := 1 }]).length
      = ([{ content := "u".toList, chunk_id := 0 },
          { content := "v".toList, chunk_id := 1 }] : List TextChunk).length ∧
    (process_chunks_parallel
        (fun c => if c.chunk_id = 1 then (.error "timeout".toList : Except Str Nat) else .ok 7)
        [{ content := "u".toList, chunk_id := 0 }, { content := "v".toList, chunk_id := 1 }]).get? 1
      = some (.failure ({ content := "v".toList, chunk_id := 1 } : TextChunk).chunk_id
          "timeout".toList) ∧
    ∀ i : Nat, i ≠ 1 →
      (process_chunks_parallel
          (fun c => if c.chunk_id = 1 then (.error "timeout".toList : Except Str Nat) else .ok 7)
          [{ content := "u".toList, chunk_id := 0 },
            { content := "v".toList, chunk_id := 1 }]).get? i
        = (process_chunks_parallel (fun _ => (.ok 7 : Except Str Nat))
            [{ content := "u".toList, chunk_id := 0 },
              { content := "v".toList, chunk_id := 1 }]).get? i :=
  dispatch_failure_isolated (fun _ => (.ok 7 : Except Str Nat))
    (fun c => if c.chunk_id = 1 then .error "timeout".toList else .ok 7)
    [{ content := "u".toList, chunk_id := 0 }, { content := "v".toList, chunk_id := 1 }]
    1 { content := "v".toList, chunk_id := 1 } "timeout".toList
    rfl rfl
    (by
      intro i ci hi hci
      match i, hci with
      | 0, hci =>
        simp only [List.get?] at hci
        cases hci
        rfl
      | Nat.succ (Nat.succ n), hci => simp [List.get?] at hci)

/-- C10.  The fixed-size loop does not terminate on every admissible
configuration: with `max_chunk_size = 4 > chunk_overlap = 2` and the text
`"a.aaaaaaaa"`, the window `[0,4)` snaps to the period (`end = 2`), the next
start is `2 - 2 = 0`, and the loop repeats identically forever.  The model
returns `none` for every fuel bound. -/
theorem fixed_size_nontermination (fuel : Nat) :
    split_by_fixed_size ⟨"fixed_size".toList, 4, 2, 1⟩ "a.aaaaaaaa".toList fuel = none := by
  unfold split_by_fixed_size
  suffices h : ∀ f cid, fixedLoop ⟨"fixed_size".toList, 4, 2, 1⟩ "a.aaaaaaaa".toList f 0 cid
      = none from h fuel 0
  intro f
  induction f with
  | zero => intro cid; rfl
  | succ g ih =>
    intro cid
    rw [fixedLoop, if_pos (by decide)]
    have hstuck : nextFrom ⟨"fixed_size".toList, 4, 2, 1⟩ "a.aaaaaaaa".toList
        (windowEnd ⟨"fixed_size".toList, 4, 2, 1⟩ "a.aaaaaaaa".toList 0) = 0 := by decide
    rw [hstuck, ih]
    rfl

end LongTextReview
